import Mathlib
/-!
# Shallow embedding of the mini-tsenta job-qualification engine

This file embeds, in Lean 4, the parts of the repository that the
specification's testable claims are about:

* `AiService.normalizeEmbeddingText`, `AiService.cosineSimilarity`,
  `AiService.getOrCreateCachedEmbedding`, `AiService.isJobTitleRelevant`
  and `AiService.isJobRelevant` from `apps/api/app/services/ai_service.ts`;
* `ApplicationsController.store` / `index` / `findByJobUrl` and the
  companies controller from `apps/api/app/controllers/`, over an abstract
  store state with the unique `(jobUrl, userId)` key of
  `prisma/migrations/20260215112144_add_user_id/migration.sql`;
* the job-title heuristic filter of the `start-automation` handler in
  `apps/desktop/src/main/index.ts`.

External collaborators (the SHA-256 hash from `node:crypto`, the Ollama
embedding call, the Prisma-backed table) are modelled as parameters or as
explicit state, exactly as the code threads them.  JavaScript numbers are
idealised as real numbers.
-/
namespace MiniTsenta

/-! ### Definitions -/

/-- The ECMAScript whitespace class: the characters matched by `\s` in a
JavaScript regular expression and stripped by `String.prototype.trim`
(WhiteSpace ∪ LineTerminator). -/
def isJsWhitespace (c : Char) : Bool :=
  c = ' ' || c = '\t' || c = '\n' || c = '\r' || c = '\x0b' || c = '\x0c' ||
  c = '\u00A0' || c = '\u1680' || ('\u2000' ≤ c && c ≤ '\u200A') ||
  c = '\u2028' || c = '\u2029' || c = '\u202F' || c = '\u205F' ||
  c = '\u3000' || c = '\uFEFF'

/-- JavaScript `String.prototype.trim`: drop leading and trailing whitespace. -/
def trimList (l : List Char) : List Char :=
  ((l.dropWhile isJsWhitespace).reverse.dropWhile isJsWhitespace).reverse

/-- The pass `.replace(/\s+/g, " ")`, scanning left to right: the first character of
each maximal whitespace run becomes a single `' '` and the rest of the run is
dropped.  The boolean records whether the previous character was part of a
whitespace run. -/
def collapseAux : Bool → List Char → List Char
  | _, [] => []
  | prevWs, c :: rest =>
    if isJsWhitespace c then
      if prevWs then collapseAux true rest else ' ' :: collapseAux true rest
    else
      c :: collapseAux false rest

/-- The pass `.replace(/\s+/g, " ")`: replace every maximal run of whitespace
characters by a single space. -/
def collapseWs (l : List Char) : List Char :=
  collapseAux false l

/-- Embedding of `AiService.normalizeEmbeddingText`:
`text.trim().replace(/\s+/g, " ")`. -/
def normalizeEmbeddingText (text : String) : String :=
  ⟨collapseWs (trimList text.data)⟩

/-- Embedding of `const dotProduct = vecA.reduce((sum, a, i) => sum + a * vecB[i], 0)`. -/
def dotProduct (vecA vecB : List ℝ) : ℝ :=
  (List.zipWith (· * ·) vecA vecB).sum

/-- Embedding of `vec.reduce((sum, a) => sum + a * a, 0)`. -/
def sumSq (v : List ℝ) : ℝ :=
  (v.map fun a => a * a).sum

/-- Embedding of `Math.sqrt(vec.reduce((sum, a) => sum + a * a, 0))`. -/
noncomputable def magnitude (v : List ℝ) : ℝ :=
  Real.sqrt (sumSq v)

/-- Embedding of `AiService.cosineSimilarity`: `dot / (magA * magB)`, `0` if either
magnitude is `0`. -/
noncomputable def cosineSimilarity (vecA vecB : List ℝ) : ℝ :=
  if magnitude vecA = 0 ∨ magnitude vecB = 0 then 0
  else dotProduct vecA vecB / (magnitude vecA * magnitude vecB)

/-- A row of the `jobTextEmbedding` table. -/
structure CacheEntry where
  model : String
  textHash : String
  normalizedText : String
  embedding : List ℝ

/-- The `model_textHash` unique-key predicate. -/
def matchesKey (model textHash : String) (e : CacheEntry) : Bool :=
  e.model == model && e.textHash == textHash

/-- Embedding of `prisma.jobTextEmbedding.findUnique` on the `model_textHash` key. -/
def findUniqueEmbedding (cache : List CacheEntry) (model textHash : String) :
    Option CacheEntry :=
  cache.find? (matchesKey model textHash)

/-- Embedding of `prisma.jobTextEmbedding.upsert({ where: { model_textHash }, create,
update })`: update `normalizedText` and `embedding` of the (unique) matching
row, or insert a fresh row when none matches. -/
def upsertEmbedding : List CacheEntry → String → String → String → List ℝ →
    List CacheEntry
  | [], model, textHash, normalizedText, embedding =>
    [⟨model, textHash, normalizedText, embedding⟩]
  | e :: rest, model, textHash, normalizedText, embedding =>
    if matchesKey model textHash e then
      ⟨e.model, e.textHash, normalizedText, embedding⟩ :: rest
    else
      e :: upsertEmbedding rest model textHash normalizedText embedding

/-- Result of one `getOrCreateCachedEmbedding` call: the returned vector, the
cache state afterwards, and how many times each collaborator was invoked. -/
structure EmbedOutcome where
  vec : List ℝ
  cache : List CacheEntry
  embedCalls : Nat
  cacheLookups : Nat
  cacheWrites : Nat

/-- Embedding of `AiService.getOrCreateCachedEmbedding`: normalize; return `[]` on blank
text; otherwise hash, consult the cache, and on a miss call the embedding
collaborator, persisting the result unless it is empty.  (In the source the
cached value additionally passes an `Array.isArray` check, which always holds
here, and the upsert is wrapped in a try/catch whose failure is only logged;
the model takes the successful write path.) -/
def getOrCreateCachedEmbedding (hashFn : String → String)
    (embedFn : String → List ℝ) (modelEmbedding : String) (text : String)
    (cache : List CacheEntry) : EmbedOutcome :=
  let normalizedText := normalizeEmbeddingText text
  if normalizedText = "" then ⟨[], cache, 0, 0, 0⟩
  else
    let textHash := hashFn normalizedText
    match findUniqueEmbedding cache modelEmbedding textHash with
    | some cached => ⟨cached.embedding, cache, 0, 1, 0⟩
    | none =>
      let embedding := embedFn normalizedText
      if embedding.length = 0 then ⟨[], cache, 1, 1, 0⟩
      else
        ⟨embedding,
          upsertEmbedding cache modelEmbedding textHash normalizedText embedding,
          1, 1, 1⟩

/-- Embedding of `private titleThreshold = 0.45`. -/
def titleThreshold : ℝ := 0.45

/-- Embedding of `private descriptionThreshold = 0.45`. -/
def descriptionThreshold : ℝ := 0.45

/-- The `{ relevant, score }` object returned by the relevance checks. -/
structure RelevanceResult where
  relevant : Bool
  score : ℤ
deriving DecidableEq

/-- Embedding of `AiService.isJobTitleRelevant`: fetch (or create) the title embedding,
fail open with `{ relevant: true, score: -1 }` when either vector is empty,
otherwise compare the cosine similarity against the title threshold.  The
surrounding try/catch in the source also returns `{ relevant: true,
score: -1 }` on an exception; the model is total, so that branch is
unreachable here. -/
noncomputable def isJobTitleRelevant (hashFn : String → String)
    (embedFn : String → List ℝ) (modelEmbedding : String) (jobTitle : String)
    (userProfileEmbedding : List ℝ) (cache : List CacheEntry) :
    RelevanceResult × EmbedOutcome :=
  let r := getOrCreateCachedEmbedding hashFn embedFn modelEmbedding jobTitle cache
  if r.vec.length = 0 ∨ userProfileEmbedding.length = 0 then
    (⟨true, -1⟩, r)
  else
    let similarity := cosineSimilarity r.vec userProfileEmbedding
    (⟨if titleThreshold ≤ similarity then true else false,
      round (similarity * 100)⟩, r)

/-- Embedding of `AiService.isJobRelevant`: same shape as the title check, with the
description threshold. -/
noncomputable def isJobRelevant (hashFn : String → String)
    (embedFn : String → List ℝ) (modelEmbedding : String)
    (jobDescription : String) (userProfileEmbedding : List ℝ)
    (cache : List CacheEntry) : RelevanceResult × EmbedOutcome :=
  let r := getOrCreateCachedEmbedding hashFn embedFn modelEmbedding
    jobDescription cache
  if r.vec.length = 0 ∨ userProfileEmbedding.length = 0 then
    (⟨true, -1⟩, r)
  else
    let similarity := cosineSimilarity r.vec userProfileEmbedding
    (⟨if descriptionThreshold ≤ similarity then true else false,
      round (similarity * 100)⟩, r)

/-- A row of the `Application` table. -/
structure AppRecord where
  userId : String
  jobTitle : String
  companyName : String
  jobUrl : String
  coverLetter : String
  status : String
  matchScore : Option ℝ

/-- A row of the `Company` table. -/
structure CompanyRecord where
  userId : String
  url : String
  name : Option String
  status : String

/-- The body fields read by `ApplicationsController.store` via
`request.only`; absent fields are `none`. -/
structure AppData where
  jobTitle : String
  companyName : String
  jobUrl : String
  coverLetter : String
  status : Option String
  matchScore : Option ℝ

/-- The body fields read by `CompaniesController.store`. -/
structure CompanyData where
  url : String
  name : Option String
  status : Option String

/-- Responses the controllers produce. -/
inductive ApiResult (α : Type) where
  | ok (value : α)
  | created (value : α)
  | conflictWith (existing : α)
  | unauthorized
  | badRequest
  | notFound

/-- JavaScript truthiness of `request.header("x-user-id")` (and of query
parameters): a missing value and the empty string are both falsy. -/
def headerValue : Option String → Option String
  | none => none
  | some s => if s = "" then none else some s

/-- Embedding of `data.status || "submitted"`: JavaScript `||` with a string default. -/
def orDefault (s : Option String) (dflt : String) : String :=
  match s with
  | none => dflt
  | some v => if v = "" then dflt else v

/-- Embedding of `prisma.application.findUnique` on the `userId_jobUrl` key. -/
def findUniqueApplication (db : List AppRecord) (userId jobUrl : String) :
    Option AppRecord :=
  db.find? fun r => r.userId == userId && r.jobUrl == jobUrl

/-- Embedding of `prisma.company.findUnique` on the `userId_url` key. -/
def findUniqueCompany (db : List CompanyRecord) (userId url : String) :
    Option CompanyRecord :=
  db.find? fun r => r.userId == userId && r.url == url

/-- The record `ApplicationsController.store` creates:
`{ userId, ...data, status: data.status || "submitted" }`. -/
def mkAppRecord (userId : String) (data : AppData) : AppRecord :=
  { userId := userId
    jobTitle := data.jobTitle
    companyName := data.companyName
    jobUrl := data.jobUrl
    coverLetter := data.coverLetter
    status := orDefault data.status "submitted"
    matchScore := data.matchScore }

/-- Embedding of `ApplicationsController.store`: reject a missing user id, return `409`
with the existing record if one exists for `(userId, jobUrl)`, otherwise
create the record. -/
def applicationsStore (header : Option String) (data : AppData)
    (db : List AppRecord) : ApiResult AppRecord × List AppRecord :=
  match headerValue header with
  | none => (.unauthorized, db)
  | some userId =>
    match findUniqueApplication db userId data.jobUrl with
    | some existing => (.conflictWith existing, db)
    | none =>
      (.created (mkAppRecord userId data), mkAppRecord userId data :: db)

/-- Embedding of `ApplicationsController.index`: return `[]` for a missing user id, else
the user's applications. -/
def applicationsIndex (header : Option String) (db : List AppRecord) :
    ApiResult (List AppRecord) :=
  match headerValue header with
  | none => .ok []
  | some userId => .ok (db.filter fun r => r.userId == userId)

/-- Embedding of `ApplicationsController.findByJobUrl`. -/
def applicationsFindByJobUrl (header : Option String) (jobUrl : Option String)
    (db : List AppRecord) : ApiResult AppRecord :=
  match headerValue header with
  | none => .unauthorized
  | some userId =>
    match headerValue jobUrl with
    | none => .badRequest
    | some j =>
      match findUniqueApplication db userId j with
      | none => .notFound
      | some r => .ok r

/-- Embedding of `CompaniesController.store`. -/
def companiesStore (header : Option String) (data : CompanyData)
    (db : List CompanyRecord) : ApiResult CompanyRecord × List CompanyRecord :=
  match headerValue header with
  | none => (.unauthorized, db)
  | some userId =>
    match findUniqueCompany db userId data.url with
    | some existing => (.conflictWith existing, db)
    | none =>
      let record : CompanyRecord :=
        { userId := userId
          url := data.url
          name := data.name
          status := orDefault data.status "visited" }
      (.created record, record :: db)

/-- Embedding of `CompaniesController.index`. -/
def companiesIndex (header : Option String) (db : List CompanyRecord) :
    ApiResult (List CompanyRecord) :=
  match headerValue header with
  | none => .ok []
  | some userId => .ok (db.filter fun r => r.userId == userId)

/-- Embedding of `CompaniesController.findByUrl`. -/
def companiesFindByUrl (header : Option String) (url : Option String)
    (db : List CompanyRecord) : ApiResult CompanyRecord :=
  match headerValue header with
  | none => .unauthorized
  | some userId =>
    match headerValue url with
    | none => .badRequest
    | some u =>
      match findUniqueCompany db userId u with
      | none => .notFound
      | some r => .ok r

/-- The alternatives of `/^(view|apply|see|open)\s/i`, lower-cased. -/
def actionVerbs : List (List Char) :=
  [['v', 'i', 'e', 'w'], ['a', 'p', 'p', 'l', 'y'], ['s', 'e', 'e'],
    ['o', 'p', 'e', 'n']]

/-- Embedding of `/^(view|apply|see|open)\s/i.test(title)`: one of the verbs at the very
start (case-insensitively), immediately followed by a whitespace character. -/
def startsWithActionVerb (title : List Char) : Bool :=
  actionVerbs.any fun verb =>
    ((title.take verb.length).map Char.toLower == verb) &&
      (match (title.drop verb.length).head? with
        | some c => isJsWhitespace c
        | none => false)

/-- The heuristic filter of the `start-automation` handler: `none` means the
job link is discarded before any embedding/relevance call. -/
def titleGate (rawText : String) : Option String :=
  let jobTitle : String := ⟨trimList rawText.data⟩
  if jobTitle.data.length < 5 || startsWithActionVerb jobTitle.data then none
  else some jobTitle

/-- At most one `Application` row per `(userId, jobUrl)`, the uniqueness the
`Application_jobUrl_userId_key` index enforces. -/
def appKeyUnique (db : List AppRecord) : Prop :=
  db.Pairwise fun r1 r2 => ¬(r1.userId = r2.userId ∧ r1.jobUrl = r2.jobUrl)

/-- Concrete request body used by witnesses. -/
def demoAppData : AppData :=
  { jobTitle := "Engineer", companyName := "Acme",
    jobUrl := "https://site/jobs/1", coverLetter := "letter",
    status := none, matchScore := none }

/-- The record `demoAppData` creates for user `"user-a"`. -/
def demoAppRecord : AppRecord :=
  { userId := "user-a", jobTitle := "Engineer", companyName := "Acme",
    jobUrl := "https://site/jobs/1", coverLetter := "letter",
    status := "submitted", matchScore := none }

/-- Concrete company body used by witnesses. -/
def demoCompanyData : CompanyData :=
  { url := "https://site/companies/acme", name := some "Acme", status := none }

/-! ### Lemmas and claim theorems -/

lemma head?_dropWhile {α : Type} (p : α → Bool) (l : List α) :
    ∀ c, (l.dropWhile p).head? = some c → p c = false := by
  induction l with
  | nil => intro c h; simp at h
  | cons a t ih =>
    intro c h
    by_cases ha : p a
    · rw [List.dropWhile_cons, if_pos ha] at h
      exact ih c h
    · rw [List.dropWhile_cons, if_neg ha] at h
      simp only [List.head?_cons, Option.some.injEq] at h
      subst h
      exact Bool.eq_false_iff.mpr ha

lemma dropWhile_eq_self_of_head {α : Type} (p : α → Bool) (l : List α)
    (h : ∀ c, l.head? = some c → p c = false) : l.dropWhile p = l := by
  cases l with
  | nil => rfl
  | cons a t =>
    rw [List.dropWhile_cons, if_neg]
    simp [h a rfl]

/-- After `trim`, the head character (if any) is not whitespace. -/
lemma head?_trimList (l : List Char) :
    ∀ c, (trimList l).head? = some c → isJsWhitespace c = false := by
  intro c h
  unfold trimList at h
  set a := l.dropWhile isJsWhitespace with ha
  set b := a.reverse.dropWhile isJsWhitespace with hb
  have hsplit : a.reverse = a.reverse.takeWhile isJsWhitespace ++ b :=
    (List.takeWhile_append_dropWhile ..).symm
  have hA : a = b.reverse ++ (a.reverse.takeWhile isJsWhitespace).reverse := by
    have := congrArg List.reverse hsplit
    rwa [List.reverse_reverse, List.reverse_append] at this
  cases hbr : b.reverse with
  | nil => rw [hbr] at h; simp at h
  | cons x xs =>
    rw [hbr] at h
    simp only [List.head?_cons, Option.some.injEq] at h
    have hax : a.head? = some x := by rw [hA, hbr]; rfl
    rw [ha] at hax
    have hx := head?_dropWhile isJsWhitespace l x hax
    rwa [h] at hx

/-- After `trim`, the last character (if any) is not whitespace. -/
lemma getLast?_trimList (l : List Char) :
    ∀ c, (trimList l).getLast? = some c → isJsWhitespace c = false := by
  intro c h
  unfold trimList at h
  rw [List.getLast?_eq_head?_reverse, List.reverse_reverse] at h
  exact head?_dropWhile isJsWhitespace _ c h

/-- Trimming is the identity on lists with no leading and no trailing
whitespace. -/
lemma trimList_eq_self (l : List Char)
    (h1 : ∀ c, l.head? = some c → isJsWhitespace c = false)
    (h2 : ∀ c, l.getLast? = some c → isJsWhitespace c = false) :
    trimList l = l := by
  unfold trimList
  rw [dropWhile_eq_self_of_head _ _ h1]
  have h2' : ∀ c, l.reverse.head? = some c → isJsWhitespace c = false := by
    intro c hc
    exact h2 c (by rw [List.getLast?_eq_head?_reverse]; exact hc)
  rw [dropWhile_eq_self_of_head _ _ h2', List.reverse_reverse]

lemma collapseAux_cons_ws_true (c : Char) (rest : List Char)
    (h : isJsWhitespace c = true) :
    collapseAux true (c :: rest) = collapseAux true rest := by
  simp [collapseAux, h]

lemma collapseAux_cons_ws_false (c : Char) (rest : List Char)
    (h : isJsWhitespace c = true) :
    collapseAux false (c :: rest) = ' ' :: collapseAux true rest := by
  simp [collapseAux, h]

lemma collapseAux_cons_not_ws (b : Bool) (c : Char) (rest : List Char)
    (h : isJsWhitespace c = false) :
    collapseAux b (c :: rest) = c :: collapseAux false rest := by
  simp [collapseAux, h]

/-- The whitespace-collapsing pass is idempotent (for either value of the
carried flag). -/
lemma collapseAux_idem (l : List Char) :
    ∀ b, collapseAux b (collapseAux b l) = collapseAux b l := by
  induction l with
  | nil => intro b; rfl
  | cons c rest ih =>
    intro b
    by_cases hc : isJsWhitespace c
    · cases b with
      | true =>
        rw [collapseAux_cons_ws_true c rest hc]
        exact ih true
      | false =>
        rw [collapseAux_cons_ws_false c rest hc,
          collapseAux_cons_ws_false ' ' _ (by decide), ih true]
    · have hc' : isJsWhitespace c = false := by simpa using hc
      rw [collapseAux_cons_not_ws b c rest hc',
        collapseAux_cons_not_ws b c _ hc', ih false]

/-- Collapsing preserves a non-whitespace head character. -/
lemma collapseAux_head (l : List Char)
    (h : ∀ c, l.head? = some c → isJsWhitespace c = false) :
    ∀ c, (collapseWs l).head? = some c → isJsWhitespace c = false := by
  intro c hc
  cases l with
  | nil => simp [collapseWs, collapseAux] at hc
  | cons d rest =>
    have hd : isJsWhitespace d = false := h d rfl
    rw [collapseWs, collapseAux_cons_not_ws false d rest hd] at hc
    simp only [List.head?_cons, Option.some.injEq] at hc
    rw [← hc]
    exact hd

/-- A list whose last character is not whitespace collapses to a nonempty
list. -/
lemma collapseAux_ne_nil (l : List Char) :
    ∀ b c, l.getLast? = some c → isJsWhitespace c = false →
      collapseAux b l ≠ [] := by
  induction l with
  | nil => intro b c h _; simp at h
  | cons d rest ih =>
    intro b c h hc
    cases rest with
    | nil =>
      simp only [List.getLast?_singleton, Option.some.injEq] at h
      rw [collapseAux_cons_not_ws b d [] (h ▸ hc)]
      simp
    | cons e es =>
      rw [List.getLast?_cons_cons] at h
      by_cases hd : isJsWhitespace d
      · cases b with
        | true =>
          rw [collapseAux_cons_ws_true d _ hd]
          exact ih true c h hc
        | false =>
          rw [collapseAux_cons_ws_false d _ hd]
          simp
      · rw [collapseAux_cons_not_ws b d _ (by simpa using hd)]
        simp

/-- Collapsing preserves "the last character is not whitespace". -/
lemma collapseAux_getLast (l : List Char) :
    ∀ b, (∀ d, l.getLast? = some d → isJsWhitespace d = false) →
      ∀ c, (collapseAux b l).getLast? = some c → isJsWhitespace c = false := by
  induction l with
  | nil => intro b _ c hc; simp [collapseAux] at hc
  | cons d rest ih =>
    intro b h c hc
    cases rest with
    | nil =>
      have hd := h d (by simp)
      rw [collapseAux_cons_not_ws b d [] hd] at hc
      simp only [collapseAux, List.getLast?_singleton, Option.some.injEq] at hc
      rw [← hc]
      exact hd
    | cons e es =>
      have h' : ∀ d', (e :: es).getLast? = some d' → isJsWhitespace d' = false := by
        intro d' hd'
        exact h d' (by rw [List.getLast?_cons_cons]; exact hd')
      obtain ⟨dl, hdl⟩ : ∃ dl, (e :: es).getLast? = some dl := by
        cases hx : (e :: es).getLast? with
        | none => simp at hx
        | some dl => exact ⟨dl, rfl⟩
      have hdlw : isJsWhitespace dl = false := h' dl hdl
      by_cases hd : isJsWhitespace d
      · cases b with
        | true =>
          rw [collapseAux_cons_ws_true d _ hd] at hc
          exact ih true h' c hc
        | false =>
          rw [collapseAux_cons_ws_false d _ hd] at hc
          have hne : collapseAux true (e :: es) ≠ [] :=
            collapseAux_ne_nil (e :: es) true dl hdl hdlw
          cases hX : collapseAux true (e :: es) with
          | nil => exact absurd hX hne
          | cons x xs =>
            rw [hX, List.getLast?_cons_cons] at hc
            exact ih true h' c (by rw [hX]; exact hc)
      · rw [collapseAux_cons_not_ws b d _ (by simpa using hd)] at hc
        have hne : collapseAux false (e :: es) ≠ [] :=
          collapseAux_ne_nil (e :: es) false dl hdl hdlw
        cases hX : collapseAux false (e :: es) with
        | nil => exact absurd hX hne
        | cons x xs =>
          rw [hX, List.getLast?_cons_cons] at hc
          exact ih false h' c (by rw [hX]; exact hc)

/-- Normalization output is a fixed point of normalization. -/
lemma normalize_data_fixed (x : String) :
    trimList (collapseWs (trimList x.data)) = collapseWs (trimList x.data) ∧
      collapseWs (collapseWs (trimList x.data)) = collapseWs (trimList x.data) := by
  constructor
  · apply trimList_eq_self
    · exact collapseAux_head (trimList x.data) (head?_trimList x.data)
    · intro c hc
      exact collapseAux_getLast (trimList x.data) false (getLast?_trimList x.data) c hc
  · exact collapseAux_idem (trimList x.data) false

/-- Normalization maps all-whitespace input to the empty string. -/
lemma normalizeEmbeddingText_eq_empty (x : String)
    (h : ∀ c ∈ x.data, isJsWhitespace c = true) :
    normalizeEmbeddingText x = "" := by
  have h1 : x.data.dropWhile isJsWhitespace = [] :=
    List.dropWhile_eq_nil_iff.mpr h
  unfold normalizeEmbeddingText trimList
  rw [h1]
  rfl

/-- C7: `normalizeEmbeddingText` (trim, then collapse every internal
whitespace run to a single space) is idempotent:
`normalize(normalize(x)) = normalize(x)` for every input string `x`. -/
theorem claim_C7_normalize_idempotent (x : String) :
    normalizeEmbeddingText (normalizeEmbeddingText x) = normalizeEmbeddingText x := by
  obtain ⟨h1, h2⟩ := normalize_data_fixed x
  show (⟨collapseWs (trimList (collapseWs (trimList x.data)))⟩ : String) = _
  rw [h1, h2]
  rfl

lemma sumSq_nonneg (v : List ℝ) : 0 ≤ sumSq v := by
  apply List.sum_nonneg
  intro x hx
  obtain ⟨a, _, rfl⟩ := List.mem_map.mp hx
  exact mul_self_nonneg a

lemma magnitude_nonneg (v : List ℝ) : 0 ≤ magnitude v :=
  Real.sqrt_nonneg _

lemma sumSq_pos (v : List ℝ) (h : ∃ x ∈ v, x ≠ 0) : 0 < sumSq v := by
  obtain ⟨x, hx, hx0⟩ := h
  induction v with
  | nil => cases hx
  | cons a t ih =>
    have hstep : sumSq (a :: t) = a * a + sumSq t := by
      simp [sumSq]
    rcases List.mem_cons.mp hx with rfl | hxt
    · have : 0 < x * x := mul_self_pos.mpr hx0
      rw [hstep]
      linarith [sumSq_nonneg t]
    · have := ih hxt
      rw [hstep]
      linarith [mul_self_nonneg a]

lemma dotProduct_comm (a b : List ℝ) : dotProduct a b = dotProduct b a := by
  unfold dotProduct
  rw [List.zipWith_comm_of_comm]
  exact mul_comm

lemma dotProduct_self (v : List ℝ) : dotProduct v v = sumSq v := by
  unfold dotProduct sumSq
  congr 1
  induction v with
  | nil => rfl
  | cons a t ih => simp [List.zipWith_cons_cons, ih]

lemma dotProduct_eq_sum_range (a : List ℝ) : ∀ b : List ℝ,
    dotProduct a b =
      ∑ i ∈ Finset.range (min a.length b.length), a.getD i 0 * b.getD i 0 := by
  induction a with
  | nil => intro b; simp [dotProduct]
  | cons x xs ih =>
    intro b
    cases b with
    | nil => simp [dotProduct]
    | cons y ys =>
      have hmin : min (x :: xs).length (y :: ys).length = min xs.length ys.length + 1 := by
        simp [List.length_cons, Nat.succ_min_succ]
      have hstep : dotProduct (x :: xs) (y :: ys) = x * y + dotProduct xs ys := by
        simp [dotProduct, List.zipWith_cons_cons]
      rw [hstep, hmin, Finset.sum_range_succ', ih ys]
      simp [List.getD_cons_succ, List.getD_cons_zero, add_comm]

lemma sumSq_eq_sum_range (v : List ℝ) :
    sumSq v = ∑ i ∈ Finset.range v.length, v.getD i 0 * v.getD i 0 := by
  induction v with
  | nil => simp [sumSq]
  | cons a t ih =>
    have hstep : sumSq (a :: t) = a * a + sumSq t := by simp [sumSq]
    rw [hstep, List.length_cons, Finset.sum_range_succ', ih]
    simp [List.getD_cons_succ, List.getD_cons_zero, add_comm]

/-- Cauchy–Schwarz for the embedded dot product. -/
lemma dotProduct_sq_le (a b : List ℝ) :
    dotProduct a b ^ 2 ≤ sumSq a * sumSq b := by
  set n := min a.length b.length with hn
  have hcs :
      (∑ i ∈ Finset.range n, a.getD i 0 * b.getD i 0) ^ 2 ≤
        (∑ i ∈ Finset.range n, a.getD i 0 ^ 2) *
          ∑ i ∈ Finset.range n, b.getD i 0 ^ 2 :=
    Finset.sum_mul_sq_le_sq_mul_sq _ _ _
  have ha : (∑ i ∈ Finset.range n, a.getD i 0 ^ 2) ≤ sumSq a := by
    rw [sumSq_eq_sum_range]
    have hsub : Finset.range n ⊆ Finset.range a.length :=
      Finset.range_subset.mpr (hn ▸ min_le_left _ _)
    calc (∑ i ∈ Finset.range n, a.getD i 0 ^ 2)
        ≤ ∑ i ∈ Finset.range a.length, a.getD i 0 ^ 2 :=
          Finset.sum_le_sum_of_subset_of_nonneg hsub (fun i _ _ => sq_nonneg _)
      _ = ∑ i ∈ Finset.range a.length, a.getD i 0 * a.getD i 0 := by
          simp [sq]
  have hb : (∑ i ∈ Finset.range n, b.getD i 0 ^ 2) ≤ sumSq b := by
    rw [sumSq_eq_sum_range]
    have hsub : Finset.range n ⊆ Finset.range b.length :=
      Finset.range_subset.mpr (hn ▸ min_le_right _ _)
    calc (∑ i ∈ Finset.range n, b.getD i 0 ^ 2)
        ≤ ∑ i ∈ Finset.range b.length, b.getD i 0 ^ 2 :=
          Finset.sum_le_sum_of_subset_of_nonneg hsub (fun i _ _ => sq_nonneg _)
      _ = ∑ i ∈ Finset.range b.length, b.getD i 0 * b.getD i 0 := by
          simp [sq]
  have hnn : 0 ≤ ∑ i ∈ Finset.range n, b.getD i 0 ^ 2 :=
    Finset.sum_nonneg fun i _ => sq_nonneg _
  have hnna : 0 ≤ sumSq a := sumSq_nonneg a
  calc dotProduct a b ^ 2
      = (∑ i ∈ Finset.range n, a.getD i 0 * b.getD i 0) ^ 2 := by
        rw [dotProduct_eq_sum_range]
    _ ≤ (∑ i ∈ Finset.range n, a.getD i 0 ^ 2) *
          ∑ i ∈ Finset.range n, b.getD i 0 ^ 2 := hcs
    _ ≤ sumSq a * sumSq b := by
        apply mul_le_mul ha hb hnn hnna

lemma abs_dotProduct_le (a b : List ℝ) :
    |dotProduct a b| ≤ magnitude a * magnitude b := by
  have h := dotProduct_sq_le a b
  have habs : |dotProduct a b| = Real.sqrt (dotProduct a b ^ 2) :=
    (Real.sqrt_sq_eq_abs _).symm
  rw [habs, magnitude, magnitude, ← Real.sqrt_mul (sumSq_nonneg a)]
  exact Real.sqrt_le_sqrt h

/-- The similarity always lies in `[-1, 1]`. -/
lemma abs_cosineSimilarity_le_one (a b : List ℝ) :
    |cosineSimilarity a b| ≤ 1 := by
  unfold cosineSimilarity
  split
  · simp
  · rename_i hmag
    push_neg at hmag
    have hA : 0 < magnitude a := (magnitude_nonneg a).lt_of_ne (Ne.symm hmag.1)
    have hB : 0 < magnitude b := (magnitude_nonneg b).lt_of_ne (Ne.symm hmag.2)
    rw [abs_div, div_le_one (by positivity)]
    calc |dotProduct a b| ≤ magnitude a * magnitude b := abs_dotProduct_le a b
      _ = |magnitude a * magnitude b| := by
          rw [abs_of_pos (by positivity)]

/-- C3: `cosineSimilarity` computes `dot(a,b) / (‖a‖·‖b‖)` with value `0`
whenever either magnitude is `0`; it is symmetric in its two arguments; and
any vector with a nonzero component has self-similarity exactly `1`. -/
theorem claim_C3_cosine_similarity :
    (∀ a b : List ℝ,
      (magnitude a ≠ 0 → magnitude b ≠ 0 →
        cosineSimilarity a b = dotProduct a b / (magnitude a * magnitude b)) ∧
      ((magnitude a = 0 ∨ magnitude b = 0) → cosineSimilarity a b = 0) ∧
      cosineSimilarity a b = cosineSimilarity b a) ∧
    (∀ v : List ℝ, (∃ x ∈ v, x ≠ 0) → cosineSimilarity v v = 1) := by
  constructor
  · intro a b
    refine ⟨fun hA hB => ?_, fun h => ?_, ?_⟩
    · unfold cosineSimilarity
      rw [if_neg (by tauto)]
    · unfold cosineSimilarity
      rw [if_pos h]
    · unfold cosineSimilarity
      by_cases h : magnitude a = 0 ∨ magnitude b = 0
      · rw [if_pos h, if_pos h.symm]
      · rw [if_neg h, if_neg (fun hc => h hc.symm), dotProduct_comm,
          mul_comm]
  · intro v hv
    have hpos : 0 < sumSq v := sumSq_pos v hv
    have hmag : magnitude v ≠ 0 := by
      unfold magnitude
      positivity
    unfold cosineSimilarity
    rw [if_neg (by tauto), dotProduct_self]
    rw [magnitude, Real.mul_self_sqrt hpos.le]
    exact div_self hpos.ne'

/-- Witness for C3: the concrete nonzero vector `[1]` has self-similarity
`1`, and `cosineSimilarity [1, 0] [0, 1] = cosineSimilarity [0, 1] [1, 0]`. -/
theorem claim_C3_cosine_similarity_witness :
    cosineSimilarity [(1 : ℝ)] [(1 : ℝ)] = 1 ∧
      cosineSimilarity [(1 : ℝ), 0] [(0 : ℝ), 1] =
        cosineSimilarity [(0 : ℝ), 1] [(1 : ℝ), 0] :=
  ⟨claim_C3_cosine_similarity.2 [(1 : ℝ)] ⟨1, List.mem_singleton.mpr rfl, one_ne_zero⟩,
    (claim_C3_cosine_similarity.1 [(1 : ℝ), 0] [(0 : ℝ), 1]).2.2⟩

lemma getOrCreate_blank (hashFn : String → String) (embedFn : String → List ℝ)
    (modelEmbedding text : String) (cache : List CacheEntry)
    (h : normalizeEmbeddingText text = "") :
    getOrCreateCachedEmbedding hashFn embedFn modelEmbedding text cache =
      ⟨[], cache, 0, 0, 0⟩ := by
  simp [getOrCreateCachedEmbedding, h]

lemma getOrCreate_hit (hashFn : String → String) (embedFn : String → List ℝ)
    (modelEmbedding text : String) (cache : List CacheEntry)
    (cached : CacheEntry) (h0 : normalizeEmbeddingText text ≠ "")
    (h : findUniqueEmbedding cache modelEmbedding
        (hashFn (normalizeEmbeddingText text)) = some cached) :
    getOrCreateCachedEmbedding hashFn embedFn modelEmbedding text cache =
      ⟨cached.embedding, cache, 0, 1, 0⟩ := by
  simp [getOrCreateCachedEmbedding, h0, h]

lemma getOrCreate_miss_fail (hashFn : String → String)
    (embedFn : String → List ℝ) (modelEmbedding text : String)
    (cache : List CacheEntry) (h0 : normalizeEmbeddingText text ≠ "")
    (h : findUniqueEmbedding cache modelEmbedding
        (hashFn (normalizeEmbeddingText text)) = none)
    (hfail : (embedFn (normalizeEmbeddingText text)).length = 0) :
    getOrCreateCachedEmbedding hashFn embedFn modelEmbedding text cache =
      ⟨[], cache, 1, 1, 0⟩ := by
  simp [getOrCreateCachedEmbedding, h0, h, hfail]

lemma getOrCreate_miss_ok (hashFn : String → String)
    (embedFn : String → List ℝ) (modelEmbedding text : String)
    (cache : List CacheEntry) (h0 : normalizeEmbeddingText text ≠ "")
    (h : findUniqueEmbedding cache modelEmbedding
        (hashFn (normalizeEmbeddingText text)) = none)
    (hok : (embedFn (normalizeEmbeddingText text)).length ≠ 0) :
    getOrCreateCachedEmbedding hashFn embedFn modelEmbedding text cache =
      ⟨embedFn (normalizeEmbeddingText text),
        upsertEmbedding cache modelEmbedding
          (hashFn (normalizeEmbeddingText text)) (normalizeEmbeddingText text)
          (embedFn (normalizeEmbeddingText text)),
        1, 1, 1⟩ := by
  simp [getOrCreateCachedEmbedding, h0, h, hok]

lemma findUnique_upsert (cache : List CacheEntry)
    (model textHash nt : String) (emb : List ℝ) :
    findUniqueEmbedding (upsertEmbedding cache model textHash nt emb) model
        textHash = some ⟨model, textHash, nt, emb⟩ := by
  induction cache with
  | nil =>
    simp [upsertEmbedding, findUniqueEmbedding, List.find?, matchesKey]
  | cons e rest ih =>
    by_cases he : matchesKey model textHash e
    · obtain ⟨h1, h2⟩ : e.model = model ∧ e.textHash = textHash := by
        simpa [matchesKey] using he
      simp only [upsertEmbedding, if_pos he]
      have hm : matchesKey model textHash ⟨e.model, e.textHash, nt, emb⟩ = true := by
        simp [matchesKey, h1, h2]
      rw [findUniqueEmbedding, List.find?_cons_of_pos _ hm, h1, h2]
    · simp only [upsertEmbedding, if_neg he]
      rw [findUniqueEmbedding, List.find?_cons_of_neg _ he]
      exact ih

lemma mem_upsert (cache : List CacheEntry) (model textHash nt : String)
    (emb : List ℝ) :
    ∀ x ∈ upsertEmbedding cache model textHash nt emb,
      x.embedding = emb ∨ x ∈ cache := by
  induction cache with
  | nil =>
    intro x hx
    simp only [upsertEmbedding, List.mem_singleton] at hx
    exact Or.inl (by rw [hx])
  | cons e rest ih =>
    intro x hx
    by_cases he : matchesKey model textHash e
    · rw [upsertEmbedding, if_pos he] at hx
      rcases List.mem_cons.mp hx with rfl | hx
      · exact Or.inl rfl
      · exact Or.inr (List.mem_cons_of_mem _ hx)
    · rw [upsertEmbedding, if_neg he] at hx
      rcases List.mem_cons.mp hx with rfl | hx
      · exact Or.inr (List.mem_cons_self _ _)
      · rcases ih x hx with h | h
        · exact Or.inl h
        · exact Or.inr (List.mem_cons_of_mem _ h)

/-- C1: if the embedding obtained for the job text is empty or the supplied
profile vector is empty, both relevance checks fail open with
`{ relevant: true, score: -1 }` — in particular they never answer
`relevant = false` in an embedding-failure case (and, being total functions,
they never throw). -/
theorem claim_C1_fail_open (hashFn : String → String)
    (embedFn : String → List ℝ) (modelEmbedding text : String)
    (profile : List ℝ) (cache : List CacheEntry)
    (h : (getOrCreateCachedEmbedding hashFn embedFn modelEmbedding text
        cache).vec = [] ∨ profile = []) :
    (isJobTitleRelevant hashFn embedFn modelEmbedding text profile cache).1 =
        ⟨true, -1⟩ ∧
      (isJobRelevant hashFn embedFn modelEmbedding text profile cache).1 =
        ⟨true, -1⟩ := by
  have hcond : (getOrCreateCachedEmbedding hashFn embedFn modelEmbedding text
      cache).vec.length = 0 ∨ profile.length = 0 := by
    rcases h with h | h
    · exact Or.inl (by rw [h]; rfl)
    · exact Or.inr (by rw [h]; rfl)
  constructor
  · simp only [isJobTitleRelevant]
    rw [if_pos hcond]
  · simp only [isJobRelevant]
    rw [if_pos hcond]

/-- Witness for C1: with an embedding collaborator that always fails (returns
`[]`) and an empty profile vector, both checks return
`{ relevant: true, score: -1 }`. -/
theorem claim_C1_fail_open_witness :
    (isJobTitleRelevant id (fun _ => []) "qwen3-embedding:0.6b" "Engineer"
        [] []).1 = ⟨true, -1⟩ ∧
      (isJobRelevant id (fun _ => []) "qwen3-embedding:0.6b" "Engineer"
        [] []).1 = ⟨true, -1⟩ :=
  claim_C1_fail_open id (fun _ => []) "qwen3-embedding:0.6b" "Engineer" [] []
    (Or.inr rfl)

/-- C9: blank (empty or all-whitespace) text makes
`getOrCreateCachedEmbedding` return the empty vector immediately — no cache
lookup, no cache write, no embedding call — so both relevance checks on such
text fail open with `{ relevant: true, score: -1 }`. -/
theorem claim_C9_blank_text (hashFn : String → String)
    (embedFn : String → List ℝ) (modelEmbedding text : String)
    (profile : List ℝ) (cache : List CacheEntry)
    (h : ∀ c ∈ text.data, isJsWhitespace c = true) :
    getOrCreateCachedEmbedding hashFn embedFn modelEmbedding text cache =
        ⟨[], cache, 0, 0, 0⟩ ∧
      (isJobTitleRelevant hashFn embedFn modelEmbedding text profile cache).1 =
        ⟨true, -1⟩ ∧
      (isJobRelevant hashFn embedFn modelEmbedding text profile cache).1 =
        ⟨true, -1⟩ := by
  have hempty := normalizeEmbeddingText_eq_empty text h
  have h1 := getOrCreate_blank hashFn embedFn modelEmbedding text cache hempty
  have hcond : (getOrCreateCachedEmbedding hashFn embedFn modelEmbedding text
      cache).vec.length = 0 ∨ profile.length = 0 :=
    Or.inl (by rw [h1]; rfl)
  refine ⟨h1, ?_, ?_⟩
  · simp only [isJobTitleRelevant]
    rw [if_pos hcond]
  · simp only [isJobRelevant]
    rw [if_pos hcond]

/-- Witness for C9: the all-whitespace text `"  \t "` with a nonempty profile
vector and a live embedding collaborator still short-circuits to the empty
vector and the fail-open result. -/
theorem claim_C9_blank_text_witness :
    getOrCreateCachedEmbedding id (fun _ => [(1 : ℝ)]) "m" "  \t " [] =
        ⟨[], [], 0, 0, 0⟩ ∧
      (isJobTitleRelevant id (fun _ => [(1 : ℝ)]) "m" "  \t " [(1 : ℝ)] []).1 =
        ⟨true, -1⟩ ∧
      (isJobRelevant id (fun _ => [(1 : ℝ)]) "m" "  \t " [(1 : ℝ)] []).1 =
        ⟨true, -1⟩ :=
  claim_C9_blank_text id (fun _ => [(1 : ℝ)]) "m" "  \t " [(1 : ℝ)] []
    (by decide)

/-- C6 counterexample: the claim asserts the bare title `"Apply"` is
discarded by the heuristic filter with zero embedding calls, but
`"Apply"` has length 5 (not `< 5`) and `/^(view|apply|see|open)\s/i`
requires a whitespace character after the verb, so the gate lets it through
to the title relevance call. -/
theorem claim_C6_counterexample :
    titleGate "Apply" = some "Apply" ∧ titleGate "Apply" ≠ none := by
  decide

/-- C6 (amended): a job-link text whose trimmed title is shorter than 5
characters, or starts with one of view/apply/see/open followed by a
whitespace character (case-insensitively), is discarded before any
embedding or relevance call (`titleGate` returns `none`); the bare title
`"Apply"` itself is not filtered. -/
theorem claim_C6_title_filter (raw : String)
    (h : (trimList raw.data).length < 5 ∨
      startsWithActionVerb (trimList raw.data) = true) :
    titleGate raw = none := by
  have hcond : (decide ((trimList raw.data).length < 5) ||
      startsWithActionVerb (trimList raw.data)) = true := by
    rcases h with h | h
    · simp [h]
    · simp [h]
  simp only [titleGate]
  split
  · rfl
  · rename_i hfalse
    exact absurd hcond (by simpa using hfalse)

/-- Witness for C6: `"Apply now"` (verb followed by whitespace) is discarded
before any AI call. -/
theorem claim_C6_title_filter_witness : titleGate "Apply now" = none :=
  claim_C6_title_filter "Apply now" (Or.inr (by decide))

/-- C5 counterexample: the claim asserts re-submitting the same text never
issues a second embedding call.  With an embedding collaborator that fails
(returns `[]`), the first call caches nothing, so the second invocation for
the same text performs an embedding call again (`embedCalls = 1`, not `0`). -/
theorem claim_C5_counterexample :
    ¬ (getOrCreateCachedEmbedding id (fun _ => ([] : List ℝ)) "m" "job"
        (getOrCreateCachedEmbedding id (fun _ => ([] : List ℝ)) "m" "job"
          []).cache).embedCalls = 0 := by
  decide

/-- C5 (amended): provided the first invocation returned a non-empty vector,
re-submitting text with the same normalized form (hence the same
`(model, contentHash)` key) never issues a second embedding call: the second
invocation performs exactly one cache lookup, no embedding call and no cache
write, and returns the previously obtained vector with the cache unchanged. -/
theorem claim_C5_cache_purity (hashFn : String → String)
    (embedFn : String → List ℝ) (modelEmbedding text text2 : String)
    (cache : List CacheEntry)
    (hsame : normalizeEmbeddingText text2 = normalizeEmbeddingText text)
    (hvec : (getOrCreateCachedEmbedding hashFn embedFn modelEmbedding text
        cache).vec ≠ []) :
    getOrCreateCachedEmbedding hashFn embedFn modelEmbedding text2
        (getOrCreateCachedEmbedding hashFn embedFn modelEmbedding text
          cache).cache =
      ⟨(getOrCreateCachedEmbedding hashFn embedFn modelEmbedding text
          cache).vec,
        (getOrCreateCachedEmbedding hashFn embedFn modelEmbedding text
          cache).cache, 0, 1, 0⟩ := by
  by_cases h0 : normalizeEmbeddingText text = ""
  · rw [getOrCreate_blank hashFn embedFn modelEmbedding text cache h0] at hvec
    exact absurd rfl hvec
  · cases hfind : findUniqueEmbedding cache modelEmbedding
      (hashFn (normalizeEmbeddingText text)) with
    | some cached =>
      have h1 := getOrCreate_hit hashFn embedFn modelEmbedding text cache
        cached h0 hfind
      rw [h1]
      exact getOrCreate_hit hashFn embedFn modelEmbedding text2 cache cached
        (by rw [hsame]; exact h0) (by rw [hsame]; exact hfind)
    | none =>
      by_cases hlen : (embedFn (normalizeEmbeddingText text)).length = 0
      · rw [getOrCreate_miss_fail hashFn embedFn modelEmbedding text cache h0
          hfind hlen] at hvec
        exact absurd rfl hvec
      · have h1 := getOrCreate_miss_ok hashFn embedFn modelEmbedding text
          cache h0 hfind hlen
        have h2 : findUniqueEmbedding
            (upsertEmbedding cache modelEmbedding
              (hashFn (normalizeEmbeddingText text))
              (normalizeEmbeddingText text)
              (embedFn (normalizeEmbeddingText text)))
            modelEmbedding (hashFn (normalizeEmbeddingText text2)) =
            some ⟨modelEmbedding, hashFn (normalizeEmbeddingText text),
              normalizeEmbeddingText text,
              embedFn (normalizeEmbeddingText text)⟩ := by
          rw [hsame]
          exact findUnique_upsert _ _ _ _ _
        have h3 := getOrCreate_hit hashFn embedFn modelEmbedding text2
          (upsertEmbedding cache modelEmbedding
            (hashFn (normalizeEmbeddingText text))
            (normalizeEmbeddingText text)
            (embedFn (normalizeEmbeddingText text)))
          ⟨modelEmbedding, hashFn (normalizeEmbeddingText text),
            normalizeEmbeddingText text, embedFn (normalizeEmbeddingText text)⟩
          (by rw [hsame]; exact h0) h2
        rw [h1]
        exact h3

/-- Witness for C5: a successful first call for `"job"` caches the vector
`[1]`; the second call for the same text returns it with one cache lookup
and zero embedding calls. -/
theorem claim_C5_cache_purity_witness :
    getOrCreateCachedEmbedding id (fun _ => [(1 : ℝ)]) "m" "job"
        (getOrCreateCachedEmbedding id (fun _ => [(1 : ℝ)]) "m" "job"
          []).cache =
      ⟨[(1 : ℝ)],
        (getOrCreateCachedEmbedding id (fun _ => [(1 : ℝ)]) "m" "job"
          []).cache, 0, 1, 0⟩ := by
  have hv : (getOrCreateCachedEmbedding id (fun _ => [(1 : ℝ)]) "m" "job"
      []).vec = [(1 : ℝ)] := rfl
  have h := claim_C5_cache_purity id (fun _ => [(1 : ℝ)]) "m" "job" "job" []
    rfl (by rw [hv]; simp)
  rw [hv] at h
  exact h

/-- C10: the cache is unchanged by a failed embedding — a cache miss whose
embedding call returns `[]` yields the empty vector, writes nothing (so a
cache holding no empty vectors still holds none), and a subsequent request
for the same text issues the embedding call again. -/
theorem claim_C10_cache_unchanged_on_failure (hashFn : String → String)
    (embedFn : String → List ℝ) (modelEmbedding text : String)
    (cache : List CacheEntry) :
    ((∀ e ∈ cache, e.embedding ≠ ([] : List ℝ)) →
      ∀ e ∈ (getOrCreateCachedEmbedding hashFn embedFn modelEmbedding text
          cache).cache, e.embedding ≠ ([] : List ℝ)) ∧
    (normalizeEmbeddingText text ≠ "" →
      findUniqueEmbedding cache modelEmbedding
        (hashFn (normalizeEmbeddingText text)) = none →
      embedFn (normalizeEmbeddingText text) = [] →
      getOrCreateCachedEmbedding hashFn embedFn modelEmbedding text cache =
        ⟨[], cache, 1, 1, 0⟩ ∧
      (getOrCreateCachedEmbedding hashFn embedFn modelEmbedding text
          (getOrCreateCachedEmbedding hashFn embedFn modelEmbedding text
            cache).cache).embedCalls = 1) := by
  constructor
  · intro hinv e he
    by_cases h0 : normalizeEmbeddingText text = ""
    · rw [getOrCreate_blank hashFn embedFn modelEmbedding text cache h0] at he
      exact hinv e he
    · cases hfind : findUniqueEmbedding cache modelEmbedding
        (hashFn (normalizeEmbeddingText text)) with
      | some cached =>
        rw [getOrCreate_hit hashFn embedFn modelEmbedding text cache cached h0
          hfind] at he
        exact hinv e he
      | none =>
        by_cases hlen : (embedFn (normalizeEmbeddingText text)).length = 0
        · rw [getOrCreate_miss_fail hashFn embedFn modelEmbedding text cache
            h0 hfind hlen] at he
          exact hinv e he
        · rw [getOrCreate_miss_ok hashFn embedFn modelEmbedding text cache h0
            hfind hlen] at he
          rcases mem_upsert cache modelEmbedding
            (hashFn (normalizeEmbeddingText text))
            (normalizeEmbeddingText text)
            (embedFn (normalizeEmbeddingText text)) e he with h | h
          · rw [h]
            intro hconr
            exact hlen (by simp [hconr])
          · exact hinv e h
  · intro h0 hfind hfail
    have h1 := getOrCreate_miss_fail hashFn embedFn modelEmbedding text cache
      h0 hfind (by rw [hfail]; rfl)
    refine ⟨h1, ?_⟩
    have hc : (getOrCreateCachedEmbedding hashFn embedFn modelEmbedding text
        cache).cache = cache := by rw [h1]
    rw [hc, h1]

/-- Witness for C10: a failing embedding collaborator leaves the (empty)
cache untouched and reports one embedding call and no cache write. -/
theorem claim_C10_cache_unchanged_on_failure_witness :
    getOrCreateCachedEmbedding id (fun _ => ([] : List ℝ)) "m" "job" [] =
      ⟨[], [], 1, 1, 0⟩ :=
  ((claim_C10_cache_unchanged_on_failure id (fun _ => ([] : List ℝ)) "m"
      "job" []).2 (by decide) rfl rfl).1

/-- C2: at-most-once application records.  The store's create operation
(pre-check-then-conditional-create over the unique `(jobUrl, userId)` key)
preserves key-uniqueness of the table; when a record for `(user, jobUrl)`
already exists it responds with a `409` conflict carrying the existing
record and creates nothing; and after a successful create, a second create
attempt for the same `(user, jobUrl)` yields exactly that conflict — the
conflict response carries the already-persisted record ("already handled")
rather than being a bare error. -/
theorem claim_C2_at_most_once (u : String) (hu : u ≠ "") (data : AppData)
    (db : List AppRecord) :
    (appKeyUnique db → appKeyUnique (applicationsStore (some u) data db).2) ∧
    (∀ existing, findUniqueApplication db u data.jobUrl = some existing →
      applicationsStore (some u) data db = (.conflictWith existing, db)) ∧
    (findUniqueApplication db u data.jobUrl = none →
      ∃ record,
        applicationsStore (some u) data db = (.created record, record :: db) ∧
        record.userId = u ∧ record.jobUrl = data.jobUrl ∧
        applicationsStore (some u) data (record :: db) =
          (.conflictWith record, record :: db)) := by
  have hhv : headerValue (some u) = some u := by simp [headerValue, hu]
  refine ⟨?_, ?_, ?_⟩
  · intro hk
    cases hfind : findUniqueApplication db u data.jobUrl with
    | some existing =>
      simp only [applicationsStore, hhv, hfind]
      exact hk
    | none =>
      simp only [applicationsStore, hhv, hfind]
      rw [appKeyUnique, List.pairwise_cons]
      refine ⟨?_, hk⟩
      intro r hr hcontra
      obtain ⟨h1, h2⟩ := hcontra
      have hnone := List.find?_eq_none.mp hfind r hr
      apply hnone
      rw [← h1, ← h2]
      simp [mkAppRecord]
  · intro existing hfind
    simp only [applicationsStore, hhv, hfind]
  · intro hfind
    refine ⟨mkAppRecord u data, ?_, rfl, rfl, ?_⟩
    · simp only [applicationsStore, hhv, hfind]
    · have hfind2 : findUniqueApplication (mkAppRecord u data :: db) u
          data.jobUrl = some (mkAppRecord u data) := by
        rw [findUniqueApplication, List.find?_cons_of_pos]
        simp [mkAppRecord]
      simp only [applicationsStore, hhv, hfind2]

/-- Witness for C2: a second create attempt for the `(user, jobUrl)` pair of
an already-persisted record yields a conflict carrying that record and
leaves the table unchanged. -/
theorem claim_C2_at_most_once_witness :
    applicationsStore (some "user-a") demoAppData [demoAppRecord] =
      (.conflictWith demoAppRecord, [demoAppRecord]) :=
  (claim_C2_at_most_once "user-a" (by decide) demoAppData
    [demoAppRecord]).2.1 demoAppRecord rfl

/-- C8 counterexample: the claim asserts every store operation rejects a
request without a user id as unauthorized, but the list (`index`)
operations instead return an empty list (HTTP 200), not an unauthorized
response. -/
theorem claim_C8_counterexample :
    applicationsIndex none ([] : List AppRecord) = .ok [] ∧
      applicationsIndex none ([] : List AppRecord) ≠ .unauthorized :=
  ⟨rfl, fun h => nomatch h⟩

/-- C8 (amended): a store request without a user id (missing or empty
`X-User-Id` header) is rejected as unauthorized by the create and find
operations of both applications and companies, while the two list
operations instead answer with an empty list. -/
theorem claim_C8_missing_identity (hdr : Option String)
    (hhdr : headerValue hdr = none) (data : AppData) (cdata : CompanyData)
    (q : Option String) (db : List AppRecord) (cdb : List CompanyRecord) :
    applicationsStore hdr data db = (.unauthorized, db) ∧
    applicationsFindByJobUrl hdr q db = .unauthorized ∧
    companiesStore hdr cdata cdb = (.unauthorized, cdb) ∧
    companiesFindByUrl hdr q cdb = .unauthorized ∧
    applicationsIndex hdr db = .ok [] ∧
    companiesIndex hdr cdb = .ok [] := by
  refine ⟨?_, ?_, ?_, ?_, ?_, ?_⟩ <;>
    simp only [applicationsStore, applicationsFindByJobUrl, companiesStore,
      companiesFindByUrl, applicationsIndex, companiesIndex, hhdr]

/-- Witness for C8: a request with no `X-User-Id` header at all. -/
theorem claim_C8_missing_identity_witness :
    applicationsStore none demoAppData [] = (.unauthorized, []) ∧
    applicationsFindByJobUrl none (some "https://site/jobs/1") [] =
      .unauthorized ∧
    companiesStore none demoCompanyData [] = (.unauthorized, []) ∧
    companiesFindByUrl none (some "https://site/jobs/1") [] =
      .unauthorized ∧
    applicationsIndex none [] = .ok [] ∧
    companiesIndex none [] = .ok [] :=
  claim_C8_missing_identity none rfl demoAppData demoCompanyData
    (some "https://site/jobs/1") [] []

lemma round_mono_real {x y : ℝ} (h : x ≤ y) : round x ≤ round y := by
  rw [round_eq, round_eq]
  exact Int.floor_mono (by linarith)

lemma round_neg_hundred : round ((-100 : ℝ)) = -100 := by
  rw [show ((-100 : ℝ)) = ((-100 : ℤ) : ℝ) by norm_num]
  exact round_intCast _

lemma round_hundred : round ((100 : ℝ)) = 100 := by
  rw [show ((100 : ℝ)) = ((100 : ℤ) : ℝ) by norm_num]
  exact round_intCast _

lemma cosine_single_one_negone :
    cosineSimilarity [(1 : ℝ)] [(-1 : ℝ)] = -1 := by
  have hm1 : magnitude [(1 : ℝ)] = 1 := by
    simp [magnitude, sumSq, Real.sqrt_one]
  have hm2 : magnitude [(-1 : ℝ)] = 1 := by
    simp [magnitude, sumSq, Real.sqrt_one]
  unfold cosineSimilarity
  rw [if_neg (by rw [hm1, hm2]; norm_num), hm1, hm2]
  simp [dotProduct]

lemma cosine_three_four :
    cosineSimilarity [(3 : ℝ), 4] [(1 : ℝ), 0] = 0.6 := by
  have hm1 : magnitude [(3 : ℝ), 4] = 5 := by
    rw [magnitude, show sumSq [(3 : ℝ), 4] = 5 ^ 2 by norm_num [sumSq],
      Real.sqrt_sq (by norm_num)]
  have hm2 : magnitude [(1 : ℝ), 0] = 1 := by
    simp [magnitude, sumSq, Real.sqrt_one]
  unfold cosineSimilarity
  rw [if_neg (by rw [hm1, hm2]; norm_num), hm1, hm2]
  norm_num [dotProduct]

/-- C4 counterexample: the claim asserts the returned score always lies in
`0..100`, but a title embedding of `[1]` against the profile vector `[-1]`
has cosine similarity `-1`, so the classifier returns score
`round(-1 * 100) = -100 < 0` (and `relevant = false`). -/
theorem claim_C4_counterexample :
    (isJobTitleRelevant id (fun _ => [(1 : ℝ)]) "m" "job" [(-1 : ℝ)]
        []).1.score = -100 ∧
      (isJobTitleRelevant id (fun _ => [(1 : ℝ)]) "m" "job" [(-1 : ℝ)]
        []).1.score < 0 := by
  have hv : (getOrCreateCachedEmbedding id (fun _ => [(1 : ℝ)]) "m" "job"
      []).vec = [(1 : ℝ)] := rfl
  have hs : (isJobTitleRelevant id (fun _ => [(1 : ℝ)]) "m" "job" [(-1 : ℝ)]
      []).1.score = -100 := by
    simp only [isJobTitleRelevant]
    rw [hv, if_neg (by simp), cosine_single_one_negone]
    rw [show ((-1 : ℝ) * 100) = ((-100 : ℝ)) by norm_num]
    exact round_neg_hundred
  exact ⟨hs, by rw [hs]; norm_num⟩

/-- C4 (amended): with both vectors non-empty the classifier returns
`relevant = (similarity ≥ 0.45)` — the title and description thresholds both
being `0.45` — and `score = round(similarity * 100)`, an integer in the
range `-100..100` (not `0..100`: negative similarities give negative
scores); a title whose cosine similarity to the profile vector is `0.6`
yields `{ relevant: true, score: 60 }`. -/
theorem claim_C4_classifier_contract :
    (titleThreshold = 0.45 ∧ descriptionThreshold = 0.45) ∧
    ∀ (hashFn : String → String) (embedFn : String → List ℝ)
      (modelEmbedding text : String) (profile : List ℝ)
      (cache : List CacheEntry),
      (getOrCreateCachedEmbedding hashFn embedFn modelEmbedding text
        cache).vec ≠ [] →
      profile ≠ [] →
      ((isJobTitleRelevant hashFn embedFn modelEmbedding text profile
          cache).1.relevant = true ↔
        titleThreshold ≤ cosineSimilarity
          (getOrCreateCachedEmbedding hashFn embedFn modelEmbedding text
            cache).vec profile) ∧
      (isJobTitleRelevant hashFn embedFn modelEmbedding text profile
          cache).1.score =
        round (cosineSimilarity
          (getOrCreateCachedEmbedding hashFn embedFn modelEmbedding text
            cache).vec profile * 100) ∧
      (-100 ≤ (isJobTitleRelevant hashFn embedFn modelEmbedding text profile
          cache).1.score) ∧
      ((isJobTitleRelevant hashFn embedFn modelEmbedding text profile
          cache).1.score ≤ 100) ∧
      (cosineSimilarity (getOrCreateCachedEmbedding hashFn embedFn
          modelEmbedding text cache).vec profile = 0.6 →
        (isJobTitleRelevant hashFn embedFn modelEmbedding text profile
          cache).1 = ⟨true, 60⟩) := by
  refine ⟨⟨rfl, rfl⟩, ?_⟩
  intro hashFn embedFn modelEmbedding text profile cache hvec hprof
  have hcond : ¬((getOrCreateCachedEmbedding hashFn embedFn modelEmbedding
      text cache).vec.length = 0 ∨ profile.length = 0) := by
    push_neg
    exact ⟨fun h => hvec (List.length_eq_zero.mp h),
      fun h => hprof (List.length_eq_zero.mp h)⟩
  have heq : (isJobTitleRelevant hashFn embedFn modelEmbedding text profile
      cache).1 =
      ⟨if titleThreshold ≤ cosineSimilarity
          (getOrCreateCachedEmbedding hashFn embedFn modelEmbedding text
            cache).vec profile then true else false,
        round (cosineSimilarity
          (getOrCreateCachedEmbedding hashFn embedFn modelEmbedding text
            cache).vec profile * 100)⟩ := by
    simp only [isJobTitleRelevant]
    rw [if_neg hcond]
  set sim := cosineSimilarity (getOrCreateCachedEmbedding hashFn embedFn
    modelEmbedding text cache).vec profile with hsim
  have hbounds : -1 ≤ sim ∧ sim ≤ 1 :=
    abs_le.mp (abs_cosineSimilarity_le_one _ _)
  refine ⟨?_, ?_, ?_, ?_, ?_⟩
  · rw [heq]
    by_cases h : titleThreshold ≤ sim
    · simp [h]
    · simp [h]
  · rw [heq]
  · rw [heq]
    show -100 ≤ round (sim * 100)
    calc (-100 : ℤ) = round ((-100 : ℝ)) := round_neg_hundred.symm
      _ ≤ round (sim * 100) := round_mono_real (by nlinarith [hbounds.1])
  · rw [heq]
    show round (sim * 100) ≤ 100
    calc round (sim * 100) ≤ round ((100 : ℝ)) :=
        round_mono_real (by nlinarith [hbounds.2])
      _ = 100 := round_hundred
  · intro h06
    rw [heq, h06]
    have ht : titleThreshold ≤ (0.6 : ℝ) := by
      rw [show titleThreshold = (0.45 : ℝ) from rfl]
      norm_num
    rw [if_pos ht, show ((0.6 : ℝ) * 100) = ((60 : ℤ) : ℝ) by norm_num,
      round_intCast]

/-- Witness for C4: the title embedding `[3, 4]` against the profile vector
`[1, 0]` has cosine similarity `3 / 5 = 0.6`, so the classifier returns
`{ relevant: true, score: 60 }`, and the score lies in `-100..100`. -/
theorem claim_C4_classifier_contract_witness :
    (-100 ≤ (isJobTitleRelevant id (fun _ => [(3 : ℝ), 4]) "m" "job"
        [(1 : ℝ), 0] []).1.score) ∧
      ((isJobTitleRelevant id (fun _ => [(3 : ℝ), 4]) "m" "job" [(1 : ℝ), 0]
        []).1.score ≤ 100) ∧
      (isJobTitleRelevant id (fun _ => [(3 : ℝ), 4]) "m" "job" [(1 : ℝ), 0]
        []).1 = ⟨true, 60⟩ := by
  have hv : (getOrCreateCachedEmbedding id (fun _ => [(3 : ℝ), 4]) "m" "job"
      []).vec = [(3 : ℝ), 4] := rfl
  have h := claim_C4_classifier_contract.2 id (fun _ => [(3 : ℝ), 4]) "m"
    "job" [(1 : ℝ), 0] [] (by rw [hv]; simp) (by simp)
  exact ⟨h.2.2.1, h.2.2.2.1, h.2.2.2.2 (by rw [hv]; exact cosine_three_four)⟩

end MiniTsenta
